import Mathlib

/-!
Verification development for the IMG-TO-PDF bulk download / PDF-assembly
pipeline (src/main.py, src/utils/image_downloader.py, src/utils/image_to_pdf.py).

The Python code is shallowly embedded: pure string manipulation is translated
directly; network and filesystem effects are modelled by explicit oracles
(a `server` function mapping a URL to its HTTP outcome, a `FileSys` mapping a
path to optional file contents, conversion-success oracles for the PIL calls),
and the asyncio semaphore discipline is modelled as a labelled transition
system.  Python `int` values that are list indices / HTTP status codes are
embedded as `Nat`; Python `hash` is an opaque parameter.
-/

/-- The character `.` (used by the model of `os.path.splitext`). -/
def dotChar : Char := '.'

/-- The character `/` (posix path separator). -/
def sepChar : Char := '/'

/-- The double-quote character, written via its code point so that the
character literal does not contain a quote. -/
def quoteChar : Char := Char.ofNat 34

/-- Model of Python `str.strip(c)` for a single strip character: removes all
leading and trailing occurrences of `c`. -/
def stripChar (s : String) (c : Char) : String :=
  ⟨((s.data.dropWhile (fun d => d == c)).reverse.dropWhile (fun d => d == c)).reverse⟩

/-- Index of the last occurrence of `c` in `cs`, if any (auxiliary). -/
def lastIndexOfAux (c : Char) : List Char → Nat → Option Nat
  | [], _ => none
  | d :: ds, i =>
    match lastIndexOfAux c ds (i + 1) with
    | some j => some j
    | none => if d == c then some i else none

/-- Index of the last occurrence of `c` in `cs`, if any. -/
def lastIndexOf (cs : List Char) (c : Char) : Option Nat :=
  lastIndexOfAux c cs 0

/-- Model of posix `os.path.splitext` on a character list: the extension is
the part starting at the last dot, provided that dot lies after the last path
separator and the base name in front of it is not made of dots only (so
`.bashrc` has no extension). -/
def splitextChars (cs : List Char) : List Char × List Char :=
  match lastIndexOf cs dotChar with
  | none => (cs, [])
  | some di =>
    let start := match lastIndexOf cs sepChar with
      | none => 0
      | some si => si + 1
    if ((cs.drop start).take (di - start)).all (fun c => c == dotChar) then (cs, [])
    else (cs.take di, cs.drop di)

/-- Model of posix `os.path.splitext` on strings. -/
def splitext (s : String) : String × String :=
  let p := splitextChars s.data
  (⟨p.1⟩, ⟨p.2⟩)

/-- Model of Python `str.lower` (adequate for ASCII file extensions). -/
def lowerStr (s : String) : String :=
  ⟨s.data.map Char.toLower⟩

/-- Boolean test that `pre` is a prefix of `s` (on character lists). -/
def charsHavePre : List Char → List Char → Bool
  | [], _ => true
  | _ :: _, [] => false
  | c :: cs, d :: ds => c == d && charsHavePre cs ds

/-- Boolean test that `pat` occurs as a contiguous substring of `s`. -/
def charsContain (pat : List Char) : List Char → Bool
  | [] => pat.isEmpty
  | c :: rest => if charsHavePre pat (c :: rest) then true else charsContain pat rest

/-- Model of Python `pat in s` for strings. -/
def strContains (s pat : String) : Bool :=
  charsContain pat.data s.data

/-- Model of posix `os.path.join` for the two-argument uses in the source:
an absolute second component wins, an empty or slash-terminated directory is
concatenated directly, otherwise a separator is inserted. -/
def joinPath (dir fname : String) : String :=
  if charsHavePre [sepChar] fname.data then fname
  else if dir = "" then fname
  else if dir.data ≠ [] && dir.data.getLast? == some sepChar then dir ++ fname
  else dir ++ "/" ++ fname

/-- The literal pattern `previewFileIndex=` probed for by `main.py`. -/
def previewPat : List Char := "previewFileIndex=".data

/-- Fuelled model of `re.sub(r'previewFileIndex=\d+', rep, s)`: at each
position, if the pattern followed by at least one digit matches, the whole
match is replaced by `rep` and scanning resumes after the digits; occurrences
are replaced left to right without overlap. -/
def subPreviewFuel (rep : List Char) : Nat → List Char → List Char
  | 0, s => s
  | fuel + 1, s =>
    match s with
    | [] => []
    | c :: rest =>
      if charsHavePre previewPat s &&
          (match (s.drop previewPat.length).head? with
           | some d => d.isDigit
           | none => false) then
        rep ++ subPreviewFuel rep fuel ((s.drop previewPat.length).dropWhile Char.isDigit)
      else
        c :: subPreviewFuel rep fuel rest

/-- Model of `re.sub(r'previewFileIndex=\d+', f'previewFileIndex={n}', url)`
as used in `download_multipages` (src/main.py line 105). -/
def sub_preview_index (url : String) (n : Nat) : String :=
  ⟨subPreviewFuel (previewPat ++ (toString n).data) url.data.length url.data⟩

/-- Outcome of one HTTP GET as observed by `download_file`: a status code, or
an exception raised anywhere inside its `try` block (network error, timeout,
directory-creation or file-write error), carrying `str(e)`. -/
inductive Resp where
  | status (code : Nat)
  | exc (msg : String)
deriving DecidableEq

/-- A network+filesystem oracle: the outcome of fetching each URL. -/
def Server : Type := String → Resp

/-- Fourth component of the error tuple built by `download_file`: either the
integer HTTP status or the exception text. -/
inductive StatusDetail where
  | code (n : Nat)
  | detail (s : String)
deriving DecidableEq

/-- The 5-tuple `(original_filename, url, error_msg, status_or_detail,
page_num)` that `download_file` returns on failure. -/
structure Failure where
  filename : Option String
  url : String
  message : String
  statusDetail : StatusDetail
  pageNum : Nat
deriving DecidableEq

/-- Filename computed by `download_file` (src/main.py lines 39-57): with an
original filename, strip quotes, strip the extension and append `.png`,
splicing `_page{N}` in front of it for page numbers above 1; otherwise derive
a base name from the URL, falling back to `file_{hash(url)}` when empty. -/
def savedFilename (pyhash : String → Int) (url : String) (original_filename : Option String)
    (page_num : Nat) : String :=
  match original_filename with
  | some ofn =>
    let fname := stripChar ofn quoteChar
    let base_name := (splitext fname).1
    if page_num > 1 then base_name ++ "_page" ++ toString page_num ++ ".png"
    else base_name ++ ".png"
  | none =>
    let fromUrl := ((url.splitOn "/").getLastD "").splitOn "?" |>.headD ""
    let base := (splitext fromUrl).1
    let base := if base = "" then "file_" ++ toString (pyhash url) else base
    if page_num > 1 then base ++ "_page" ++ toString page_num ++ ".png"
    else base ++ ".png"

/-- Model of `download_file` (src/main.py lines 37-85).  The byte stream
written on success is not tracked; the function returns the pair
`(output_path, None)` on HTTP 200, and `(None, failure_tuple)` on any other
status or on an exception, exactly as the source does. -/
def download_file (server : Server) (pyhash : String → Int) (url : String)
    (output_dir : String) (original_filename : Option String) (page_num : Nat) :
    Option String × Option Failure :=
  let filename := savedFilename pyhash url original_filename page_num
  let output_path := joinPath output_dir filename
  match server url with
  | Resp.status code =>
    if code = 200 then (some output_path, none)
    else (none, some ⟨original_filename, url,
      "Erro ao baixar " ++ url ++ ": " ++ toString code, StatusDetail.code code, page_num⟩)
  | Resp.exc m =>
    (none, some ⟨original_filename, url, "Erro: " ++ m, StatusDetail.detail m, page_num⟩)

/-- Body of the page-probing loop of `download_multipages` (src/main.py lines
103-115), recursing on the remaining fuel `max_pages - page_num + 1`: each
iteration rewrites the page index into the URL, calls `download_file`, appends
a success to the page list and a failure to the error list, and breaks out of
the loop at the first failure. -/
def probeLoop (server : Server) (pyhash : String → Int) (url output_dir ofn : String) :
    Nat → Nat → List String × List Failure
  | 0, _ => ([], [])
  | fuel + 1, page_num =>
    let page_url := sub_preview_index url page_num
    let r := download_file server pyhash page_url output_dir (some ofn) page_num
    match r.2 with
    | some e =>
      ((match r.1 with | some p => [p] | none => []), [e])
    | none =>
      let rest := probeLoop server pyhash url output_dir ofn fuel (page_num + 1)
      ((match r.1 with | some p => p :: rest.1 | none => rest.1), rest.2)

/-- Model of `download_multipages` (src/main.py lines 87-118): a URL without a
`previewFileIndex=` parameter is downloaded once as a single-page document;
otherwise pages 1, 2, … are probed until the first failure or `max_pages`. -/
def download_multipages (server : Server) (pyhash : String → Int)
    (url output_dir ofn : String) (max_pages : Nat) : List String × List Failure :=
  if strContains url "previewFileIndex=" then
    probeLoop server pyhash url output_dir ofn max_pages 1
  else
    let r := download_file server pyhash url output_dir (some ofn) 1
    ((match r.1 with | some p => [p] | none => []),
     (match r.2 with | some e => [e] | none => []))

/-- Number of `download_file` calls executed by `probeLoop` with the same
arguments: one per iteration, stopping after the iteration that fails. -/
def probeAttempts (server : Server) (pyhash : String → Int) (url output_dir ofn : String) :
    Nat → Nat → Nat
  | 0, _ => 0
  | fuel + 1, page_num =>
    let page_url := sub_preview_index url page_num
    let r := download_file server pyhash page_url output_dir (some ofn) page_num
    match r.2 with
    | some _ => 1
    | none => 1 + probeAttempts server pyhash url output_dir ofn fuel (page_num + 1)

/-- Number of `download_file` calls executed by `download_multipages`. -/
def download_attempts (server : Server) (pyhash : String → Int)
    (url output_dir ofn : String) (max_pages : Nat) : Nat :=
  if strContains url "previewFileIndex=" then
    probeAttempts server pyhash url output_dir ofn max_pages 1
  else 1

/-- Destination path produced for page `p` of a probed document: the page URL
is the base URL with the page index substituted, and the file name derives
from the original filename with a `_page{p}` marker for pages above 1. -/
def page_dl_path (pyhash : String → Int) (url output_dir ofn : String) (p : Nat) : String :=
  joinPath output_dir (savedFilename pyhash (sub_preview_index url p) (some ofn) p)

/-- A model filesystem: each path maps to its contents, if the file exists. -/
def FileSys : Type := String → Option String

/-- String of 60 dashes used as a separator by `write_error_log`. -/
def dashesLine : String := ⟨List.replicate 60 (Char.ofNat 45)⟩

/-- Python rendering of the optional original filename inside an f-string:
`None` when absent. -/
def showOptFilename : Option String → String
  | none => "None"
  | some s => s

/-- Python rendering of the status-or-detail field inside an f-string. -/
def showStatusDetail : StatusDetail → String
  | StatusDetail.code n => toString n
  | StatusDetail.detail s => s

/-- One `ERRO #i` block written by `write_error_log` (src/main.py lines
130-137). -/
def error_entry (i : Nat) (e : Failure) : String :=
  "ERRO #" ++ toString i ++ ":\n" ++
  "Arquivo: " ++ showOptFilename e.filename ++ "\n" ++
  "URL: " ++ e.url ++ "\n" ++
  "Página: " ++ toString e.pageNum ++ "\n" ++
  "Mensagem: " ++ e.message ++ "\n" ++
  "Status/Detalhe: " ++ showStatusDetail e.statusDetail ++ "\n" ++
  dashesLine ++ "\n\n"

/-- The enumerated error blocks, numbered from `i` upward. -/
def error_entries : Nat → List Failure → String
  | _, [] => ""
  | i, e :: rest => error_entry i e ++ error_entries (i + 1) rest

/-- Full contents written by `write_error_log` for a nonempty error list. -/
def error_log_content (timestamp : String) (errors : List Failure) : String :=
  "=== LOG DE ERROS GERADO EM " ++ timestamp ++ " ===\n\n" ++
  "Total de erros: " ++ toString errors.length ++ "\n\n" ++
  error_entries 1 errors

/-- Model of `write_error_log` (src/main.py lines 120-139) as a filesystem
transformer: with no errors it returns immediately, touching nothing; with
errors it opens `log_file` in mode `w` and writes the report, replacing any
previous contents of that path and leaving every other path unchanged. -/
def write_error_log (errors : List Failure) (log_file timestamp : String)
    (fs : FileSys) : FileSys :=
  if errors = [] then fs
  else fun path => if path = log_file then some (error_log_content timestamp errors) else fs path

/-- Model of one Python dict assignment `m[k] = v` on an insertion-ordered
association list: an existing key has its value replaced in place, a new key
is appended at the end. -/
def dict_insert (m : List (String × List String)) (k : String) (v : List String) :
    List (String × List String) :=
  if m.any (fun p => p.1 == k) then
    m.map (fun p => if p.1 == k then (k, v) else p)
  else m ++ [(k, v)]

/-- Model of the result-aggregation loop of `process_csv` (src/main.py lines
202-210): each task result `(filename, pages, errors)` stores its pages under
the quote-stripped, extension-stripped base name — but only when the page list
is nonempty — and appends its errors to the run-wide error list. -/
def aggregate_step (acc : List (String × List String) × List Failure)
    (r : String × List String × List Failure) :
    List (String × List String) × List Failure :=
  let m := if r.2.1 = [] then acc.1
    else dict_insert acc.1 (splitext (stripChar r.1 quoteChar)).1 r.2.1
  (m, acc.2 ++ r.2.2)

/-- Model of the result-aggregation loop of `process_csv`, folding
`aggregate_step` over the gathered task results starting from an empty page
dictionary and an empty error list. -/
def aggregate_results (results : List (String × List String × List Failure)) :
    List (String × List String) × List Failure :=
  results.foldl aggregate_step ([], [])

/-- Supported raster extensions of `AsyncImageToPdfConverter`
(src/utils/image_to_pdf.py line 47). -/
def SUPPORTED_FORMATS : List String := [".png", ".jpg", ".jpeg", ".tiff", ".bmp", ".webp"]

/-- Oracle for the filesystem/PIL effects of the converter: whether a path
exists, whether `Image.open` succeeds on it, and whether `image.save` to a
given output path succeeds. -/
structure ConvEnv where
  fileExists : String → Bool
  openOk : String → Bool
  saveOk : String → Bool

/-- Model of `_validate_image_path` (src/utils/image_to_pdf.py lines 63-80):
the path must exist and its lower-cased extension must be supported. -/
def validate_image_path (env : ConvEnv) (p : String) : Bool :=
  env.fileExists p && SUPPORTED_FORMATS.contains (lowerStr (splitext p).2)

/-- Model of `_prepare_image` (lines 82-112): validation followed by
`Image.open`; any failure yields `None`, modelled as `false`. -/
def prepare_image_ok (env : ConvEnv) (p : String) : Bool :=
  validate_image_path env p && env.openOk p

/-- Model of `_convert_image_sync` (lines 167-192): prepare the image, then
save it as PDF; an exception while saving yields `false`. -/
def convert_image_sync (env : ConvEnv) (p output_path : String) : Bool :=
  prepare_image_ok env p && env.saveOk output_path

/-- Model of `convert_single_image` (lines 128-165): the async wrapper only
adds directory creation and executor dispatch around `_convert_image_sync`. -/
def convert_single_image (env : ConvEnv) (p output_path : String) : Bool :=
  convert_image_sync env p output_path

/-- Model of `_convert_multiple_sync` (lines 233-276): prepare every image in
order, fail when none is valid, otherwise save the first as the PDF base with
the rest appended; the final save may itself fail. -/
def convert_multiple_images (env : ConvEnv) (image_paths : List String)
    (output_path : String) : Bool :=
  if image_paths = [] then false
  else if (image_paths.filter (fun p => prepare_image_ok env p)) = [] then false
  else env.saveOk output_path

/-- Simplified model of `os.path.relpath p input_dir` adequate for the
pipeline's use (paths produced by joining `input_dir` with a file name): if
`input_dir ++ "/"` is a prefix of `p`, the remainder; otherwise `p` itself. -/
def relPathModel (p input_dir : String) : String :=
  if charsHavePre (input_dir.data ++ [sepChar]) p.data then
    ⟨p.data.drop (input_dir.data.length + 1)⟩
  else p

/-- Output path used by `batch_convert` for one image (lines 396-398). -/
def convert_out_path (input_dir output_dir p : String) : String :=
  joinPath output_dir ((splitext (relPathModel p input_dir)).1 ++ ".pdf")

/-- Successes accumulated by the batch loop of `batch_convert` (lines
390-409): per batch, the number of `True` results among the per-image
conversions, summed across batches. -/
def batch_success_count (env : ConvEnv) (input_dir output_dir : String) :
    List (List String) → Nat
  | [] => 0
  | batch :: rest =>
    (batch.map (fun p => convert_single_image env p (convert_out_path input_dir output_dir p))).count true
      + batch_success_count env input_dir output_dir rest

/-- Model of `batch_convert` (src/utils/image_to_pdf.py lines 360-428): an
empty path list returns `False`; otherwise the paths are cut into consecutive
slices of `batch_size` (Python `image_paths[i:i+batch_size]` for
`i in range(0, len, batch_size)`), every image of every batch is converted to
its own PDF, and the call returns whether at least one conversion succeeded. -/
def batch_convert (env : ConvEnv) (image_paths : List String)
    (input_dir output_dir : String) (batch_size : Nat) : Bool :=
  if image_paths = [] then false
  else
    let batches := (List.range ((image_paths.length + batch_size - 1) / batch_size)).map
      (fun i => (image_paths.drop (i * batch_size)).take batch_size)
    batch_success_count env input_dir output_dir batches > 0

/-- Model of `AsyncImageDownloader.download` outcomes for the batching layer:
the per-URL result (destination path on success, `None` on any error) is
abstracted into the oracle `fetch`; `download_multiple` (src/utils/
image_downloader.py lines 261-308) returns the successful paths, completion
order modelled as submission order. -/
def download_multiple (fetch : String → Option String) (urls : List String) : List String :=
  if urls = [] then [] else urls.filterMap fetch

/-- The consecutive URL slices processed by `batch_download` (src/utils/
image_downloader.py lines 370-383): `batch_count = ceil(n / batch_size)`
batches, batch `i` being `urls[i*b : min(i*b+b, n)]`. -/
def batch_slices (urls : List String) (batch_size : Nat) : List (List String) :=
  let total := urls.length
  let batch_count := (total + batch_size - 1) / batch_size
  (List.range batch_count).map (fun i =>
    let bstart := i * batch_size
    let bend := min (bstart + batch_size) total
    (urls.drop bstart).take (bend - bstart))

/-- Model of `batch_download` (src/utils/image_downloader.py lines 348-414):
an empty URL list returns `[]` immediately; otherwise the batches are
processed sequentially and their successful paths concatenated in order. -/
def batch_download (fetch : String → Option String) (urls : List String)
    (batch_size : Nat) : List String :=
  if urls = [] then []
  else ((batch_slices urls batch_size).map (fun batch => download_multiple fetch batch)).flatten

/-- Phase of one fetch task with respect to the shared semaphore: not yet
entered `async with self.semaphore`, currently holding a slot (its HTTP
request is in flight), or finished (slot given back). -/
inductive TaskPhase where
  | pending
  | holding
  | finished
deriving DecidableEq

/-- Boolean test for the holding phase. -/
def isHolding : TaskPhase → Bool
  | TaskPhase.holding => true
  | _ => false

/-- Number of tasks currently holding a semaphore slot. -/
def countHolding (ps : List TaskPhase) : Nat :=
  ps.countP isHolding

/-- Global state of the semaphore discipline: free slots plus the phase of
every task of the run. -/
structure SemState where
  avail : Nat
  phases : List TaskPhase

/-- Initial state: all `n` slots free (`asyncio.Semaphore(n)`), no task has
started its fetch yet. -/
def semInit (n k : Nat) : SemState :=
  ⟨n, List.replicate k TaskPhase.pending⟩

/-- One scheduler step of the semaphore discipline modelling `async with
self.semaphore` around the fetch body (src/utils/image_downloader.py lines
183-259 and src/main.py lines 186-190): a pending task may acquire a slot
only when one is free, and a holding task releases its slot when its body
finishes — `outcome` records whether the body returned normally or raised,
and deliberately does not influence the release, because `async with`
releases on every exit path. -/
inductive SemStep : SemState → SemState → Prop where
  | acquire (s : SemState) (i : Nat) (hi : i < s.phases.length)
      (hp : s.phases.get ⟨i, hi⟩ = TaskPhase.pending) (hav : 0 < s.avail) :
      SemStep s ⟨s.avail - 1, s.phases.set i TaskPhase.holding⟩
  | release (s : SemState) (i : Nat) (hi : i < s.phases.length)
      (hp : s.phases.get ⟨i, hi⟩ = TaskPhase.holding) (outcome : Bool) :
      SemStep s ⟨s.avail + 1, s.phases.set i TaskPhase.finished⟩

/-- States reachable from `init` by scheduler steps. -/
inductive SemReachable (init : SemState) : SemState → Prop where
  | refl : SemReachable init init
  | step {s t : SemState} : SemReachable init s → SemStep s t → SemReachable init t

/-- Conversion results collected by the PDF phase of `process_csv`
(src/main.py lines 236-258): one boolean per stored document, using the
single-image converter for one page and the multi-image converter otherwise;
a document with an empty page list is skipped. -/
def conversion_results_of (convOne : String → String → Bool)
    (convMany : List String → String → Bool) (pdf_dir : String)
    (all_pages : List (String × List String)) : List Bool :=
  all_pages.filterMap (fun bp =>
    match bp.2 with
    | [] => none
    | [single] => some (convOne single (joinPath pdf_dir (bp.1 ++ ".pdf")))
    | ps => some (convMany ps (joinPath pdf_dir (bp.1 ++ ".pdf"))))

/-- Model of the `conversion_success` flag of `process_csv` (lines 222-261):
initially false, it becomes true only when the PDF phase runs (conversion
requested and at least one document stored) and then only if every collected
result is true and at least one result was collected. -/
def conversion_success_flag (convert_to_pdf : Bool) (convOne : String → String → Bool)
    (convMany : List String → String → Bool) (pdf_dir : String)
    (all_pages : List (String × List String)) : Bool :=
  if convert_to_pdf && !all_pages.isEmpty then
    let rs := conversion_results_of convOne convMany pdf_dir all_pages
    rs.all (fun b => b) && decide (0 < rs.length)
  else false

/-- Model of the end-of-run cleanup decision (src/main.py lines 141-148 and
279-281): `cleanup_downloads` is invoked only under
`conversion_success and not keep_downloads`, and itself removes the directory
only under `not keep_downloads and os.path.exists(download_dir)`. -/
def downloads_removed (convert_to_pdf keep_downloads dir_exists : Bool)
    (convOne : String → String → Bool) (convMany : List String → String → Bool)
    (pdf_dir : String) (all_pages : List (String × List String)) : Bool :=
  let cs := conversion_success_flag convert_to_pdf convOne convMany pdf_dir all_pages
  if cs && !keep_downloads then
    (if !keep_downloads && dir_exists then true else false)
  else false

/-- Concrete demo server: pages 1 and 2 of the demo document return
HTTP 200, every other URL returns 404. -/
def demoServer2 : Server := fun u =>
  if u = "d?previewFileIndex=1" then Resp.status 200
  else if u = "d?previewFileIndex=2" then Resp.status 200
  else Resp.status 404

/-- Concrete demo server: pages 1, 2 and 3 of the demo document return
HTTP 200, every other URL returns 404. -/
def demoServer3 : Server := fun u =>
  if u = "d?previewFileIndex=1" then Resp.status 200
  else if u = "d?previewFileIndex=2" then Resp.status 200
  else if u = "d?previewFileIndex=3" then Resp.status 200
  else Resp.status 404

/-- A `download_file` call yields exactly one outcome (pure case analysis on
the server response). -/
theorem download_file_cases (server : Server) (pyhash : String → Int)
    (url output_dir : String) (ofn : Option String) (page_num : Nat) :
    ((download_file server pyhash url output_dir ofn page_num).1.isSome ∧
      (download_file server pyhash url output_dir ofn page_num).2 = none) ∨
    ((download_file server pyhash url output_dir ofn page_num).1 = none ∧
      (download_file server pyhash url output_dir ofn page_num).2.isSome) := by
  unfold download_file
  cases server url with
  | status code =>
    by_cases h : code = 200 <;> simp [h]
  | exc m => simp

/-- In every probe-loop iteration exactly one of the two result lists grows,
so their total length equals the number of fetch attempts. -/
theorem probeLoop_count (server : Server) (pyhash : String → Int)
    (url output_dir ofn : String) :
    ∀ (fuel page_num : Nat),
      (probeLoop server pyhash url output_dir ofn fuel page_num).1.length +
        (probeLoop server pyhash url output_dir ofn fuel page_num).2.length =
      probeAttempts server pyhash url output_dir ofn fuel page_num := by
  intro fuel
  induction fuel with
  | zero => intro page_num; simp [probeLoop, probeAttempts]
  | succ f ih =>
    intro page_num
    have h := ih (page_num + 1)
    cases hs : server (sub_preview_index url page_num) with
    | status code =>
      by_cases hc : code = 200 <;>
        simp [probeLoop, probeAttempts, download_file, hs, hc] <;> omega
    | exc m =>
      simp [probeLoop, probeAttempts, download_file, hs]

/-- C1: every fetch of one URL yields exactly one outcome — `download_file`
returns a pair with exactly one non-`None` component (a destination path on
HTTP 200, a structured failure record otherwise) — and consequently, over a
whole multi-page run, the number of succeeded page paths plus the number of
recorded failures equals the number of fetch attempts. -/
theorem download_file_single_outcome (server : Server) (pyhash : String → Int)
    (output_dir : String) :
    (∀ (url : String) (ofn : Option String) (page_num : Nat),
      ((download_file server pyhash url output_dir ofn page_num).1.isSome ∧
        (download_file server pyhash url output_dir ofn page_num).2 = none) ∨
      ((download_file server pyhash url output_dir ofn page_num).1 = none ∧
        (download_file server pyhash url output_dir ofn page_num).2.isSome)) ∧
    (∀ (url ofn : String) (max_pages : Nat),
      (download_multipages server pyhash url output_dir ofn max_pages).1.length +
        (download_multipages server pyhash url output_dir ofn max_pages).2.length =
      download_attempts server pyhash url output_dir ofn max_pages) := by
  constructor
  · intro url ofn page_num
    exact download_file_cases server pyhash url output_dir ofn page_num
  · intro url ofn max_pages
    unfold download_multipages download_attempts
    by_cases h : strContains url "previewFileIndex=" = true
    · simp [h, probeLoop_count]
    · simp only [Bool.not_eq_true] at h
      cases hs : server url with
      | status code =>
        by_cases hc : code = 200 <;> simp [h, download_file, hs, hc]
      | exc m => simp [h, download_file, hs]

/-- C10: the file name computed by `download_file` always ends in `.png`, for
every input; when `page_num > 1` the `_page{N}` marker sits immediately before
that extension; and the path returned on success is exactly the output
directory joined with that file name. -/
theorem download_filename_ends_png (server : Server) (pyhash : String → Int)
    (url output_dir : String) (ofn : Option String) (page_num : Nat) :
    (∃ base, savedFilename pyhash url ofn page_num = base ++ ".png") ∧
    (1 < page_num → ∃ base,
      savedFilename pyhash url ofn page_num = base ++ "_page" ++ toString page_num ++ ".png") ∧
    ((download_file server pyhash url output_dir ofn page_num).1 = none ∨
      (download_file server pyhash url output_dir ofn page_num).1 =
        some (joinPath output_dir (savedFilename pyhash url ofn page_num))) := by
  refine ⟨?_, ?_, ?_⟩
  · cases ofn with
    | some o =>
      by_cases h : page_num > 1 <;> simp [savedFilename, h] <;> exact ⟨_, rfl⟩
    | none =>
      by_cases h : page_num > 1 <;>
        by_cases hb : (splitext (((url.splitOn "/").getLastD "").splitOn "?" |>.headD "")).1 = "" <;>
        simp [savedFilename, h, hb] <;> exact ⟨_, rfl⟩
  · intro hp
    cases ofn with
    | some o => simp only [savedFilename, hp, if_pos]; exact ⟨_, rfl⟩
    | none =>
      by_cases hb : (splitext (((url.splitOn "/").getLastD "").splitOn "?" |>.headD "")).1 = "" <;>
        simp [savedFilename, hp, hb] <;> exact ⟨_, rfl⟩
  · unfold download_file
    cases server url with
    | status code => by_cases hc : code = 200 <;> simp [hc]
    | exc m => simp

/-- C10 witness: a concrete page-2 fetch is saved under
`doc_page2.png`, and the success path is the joined output path. -/
theorem download_filename_ends_png_witness :
    ∃ base, savedFilename (fun _ => 0) "u" (some "doc.pdf") 2 =
      base ++ "_page" ++ toString 2 ++ ".png" :=
  (download_filename_ends_png (fun _ => Resp.status 200) (fun _ => 0) "u" "dl"
    (some "doc.pdf") 2).2.1 (by decide)

/-- C8: with zero recorded failures `write_error_log` returns before touching
the filesystem, so the report destination is left exactly as it was (not
created, not truncated); with at least one failure the report file is written
with the serialized records, and no other path is affected. -/
theorem write_error_log_untouched_when_no_failures (errors : List Failure)
    (log_file timestamp : String) (fs : FileSys) :
    (errors = [] → write_error_log errors log_file timestamp fs = fs) ∧
    (errors ≠ [] →
      write_error_log errors log_file timestamp fs log_file =
        some (error_log_content timestamp errors) ∧
      ∀ p, p ≠ log_file → write_error_log errors log_file timestamp fs p = fs p) := by
  constructor
  · intro h
    simp [write_error_log, h]
  · intro h
    constructor
    · simp [write_error_log, h]
    · intro p hp
      simp [write_error_log, h, hp]

/-- C8 witness: instantiated at an empty error list over an empty filesystem,
and at a one-element error list, the report file is untouched respectively
written. -/
theorem write_error_log_untouched_when_no_failures_witness :
    write_error_log [] "error_log.txt" "ts" (fun _ => none) = (fun _ => none) ∧
    (write_error_log [⟨some "f", "u", "m", StatusDetail.code 500, 1⟩] "error_log.txt" "ts"
        (fun _ => none) "error_log.txt").isSome := by
  constructor
  · exact (write_error_log_untouched_when_no_failures [] "error_log.txt" "ts"
      (fun _ => none)).1 rfl
  · rw [((write_error_log_untouched_when_no_failures
      [⟨some "f", "u", "m", StatusDetail.code 500, 1⟩] "error_log.txt" "ts"
      (fun _ => none)).2 (by simp)).1]
    rfl

/-- Keys are unchanged when `dict_insert` overwrites, and extended by a fresh
key when it appends, so key distinctness is preserved. -/
theorem dict_insert_keys_nodup (m : List (String × List String)) (k : String)
    (v : List String) (hm : (m.map Prod.fst).Nodup) :
    ((dict_insert m k v).map Prod.fst).Nodup := by
  unfold dict_insert
  by_cases h : m.any (fun p => p.1 == k) = true
  · rw [if_pos h]
    have : (m.map (fun p => if p.1 == k then (k, v) else p)).map Prod.fst = m.map Prod.fst := by
      rw [List.map_map]
      apply List.map_congr_left
      intro p _
      by_cases hp : p.1 = k <;> simp [hp]
    rw [this]
    exact hm
  · rw [if_neg h]
    have hk : k ∉ m.map Prod.fst := by
      intro hmem
      rcases List.mem_map.1 hmem with ⟨p, hp, hpk⟩
      rw [List.any_eq_true] at h
      exact h ⟨p, hp, by simp [hpk]⟩
    simp only [List.map_append, List.map_cons, List.map_nil]
    rw [List.nodup_append]
    refine ⟨hm, List.nodup_singleton k, ?_⟩
    intro a ha hb
    rw [List.mem_singleton] at hb
    subst hb
    exact hk ha

/-- Inserting a nonempty value keeps every stored page list nonempty. -/
theorem dict_insert_values_ne_nil (m : List (String × List String)) (k : String)
    (v : List String) (hv : v ≠ []) (hm : ∀ p ∈ m, p.2 ≠ []) :
    ∀ p ∈ dict_insert m k v, p.2 ≠ [] := by
  unfold dict_insert
  by_cases h : m.any (fun p => p.1 == k) = true
  · rw [if_pos h]
    intro p hp
    rcases List.mem_map.1 hp with ⟨q, hq, hqe⟩
    by_cases hqk : q.1 = k
    · simp [hqk] at hqe
      rw [← hqe]
      exact hv
    · simp [hqk] at hqe
      rw [← hqe]
      exact hm q hq
  · rw [if_neg h]
    intro p hp
    rcases List.mem_append.1 hp with hp | hp
    · exact hm p hp
    · rw [List.mem_singleton] at hp
      rw [hp]
      exact hv

/-- The aggregation fold preserves the `DocumentPageSet` invariant. -/
theorem aggregate_fold_invariant (results : List (String × List String × List Failure)) :
    ∀ acc : List (String × List String) × List Failure,
      (∀ p ∈ acc.1, p.2 ≠ []) → (acc.1.map Prod.fst).Nodup →
      (∀ p ∈ (results.foldl aggregate_step acc).1, p.2 ≠ []) ∧
        ((results.foldl aggregate_step acc).1.map Prod.fst).Nodup := by
  induction results with
  | nil => intro acc h1 h2; exact ⟨h1, h2⟩
  | cons r rest ih =>
    intro acc h1 h2
    rw [List.foldl_cons]
    apply ih
    · unfold aggregate_step
      by_cases hr : r.2.1 = []
      · simpa [hr] using h1
      · simp only [hr, if_neg, ite_false]
        exact dict_insert_values_ne_nil acc.1 _ r.2.1 hr h1
    · unfold aggregate_step
      by_cases hr : r.2.1 = []
      · simpa [hr] using h2
      · simp only [hr, ite_false]
        exact dict_insert_keys_nodup acc.1 _ r.2.1 h2

/-- C6: the `DocumentPageSet` built by `process_csv` never stores an empty
page list (a document whose page 1 failed contributes no entry), and every
document identifier appears at most once in it. -/
theorem document_page_set_invariant (results : List (String × List String × List Failure)) :
    (∀ p ∈ (aggregate_results results).1, p.2 ≠ []) ∧
    (((aggregate_results results).1.map Prod.fst)).Nodup := by
  unfold aggregate_results
  exact aggregate_fold_invariant results ([], []) (by simp) (by simp)

/-- C6 witness: for a concrete result set — one document with two pages, one
failed document with no pages, and a second copy of the first document — the
mapping stores nonempty entries under distinct keys. -/
theorem document_page_set_invariant_witness :
    (((aggregate_results
        [("a.pdf", ["p1", "p2"], []),
         ("b.pdf", [], [⟨some "b.pdf", "u", "m", StatusDetail.code 404, 1⟩]),
         ("a.pdf", ["q1"], [])]).1.map Prod.fst)).Nodup :=
  (document_page_set_invariant
    [("a.pdf", ["p1", "p2"], []),
     ("b.pdf", [], [⟨some "b.pdf", "u", "m", StatusDetail.code 404, 1⟩]),
     ("a.pdf", ["q1"], [])]).2

/-- C9: the downloads directory is removed at the end of a run exactly when
the keep-downloads flag is off, PDF conversion was requested, the directory
exists, and every attempted document conversion returned success with at
least one conversion having run; in particular a single failed conversion, or
conversion being disabled, leaves every downloaded file in place. -/
theorem downloads_removed_iff_all_conversions_ok (convert_to_pdf keep_downloads dir_exists : Bool)
    (convOne : String → String → Bool) (convMany : List String → String → Bool)
    (pdf_dir : String) (all_pages : List (String × List String)) :
    downloads_removed convert_to_pdf keep_downloads dir_exists convOne convMany pdf_dir all_pages
      = true ↔
    (keep_downloads = false ∧ convert_to_pdf = true ∧ dir_exists = true ∧
      conversion_results_of convOne convMany pdf_dir all_pages ≠ [] ∧
      ∀ r ∈ conversion_results_of convOne convMany pdf_dir all_pages, r = true) := by
  unfold downloads_removed conversion_success_flag
  cases all_pages with
  | nil =>
    simp [conversion_results_of]
  | cons a rest =>
    cases convert_to_pdf <;> cases keep_downloads <;> cases dir_exists <;>
      simp [List.all_eq_true, List.length_pos, and_comm, and_assoc, and_left_comm]

/-- C9 witness: with one document whose conversion fails, the downloads
directory is not removed. -/
theorem downloads_removed_iff_all_conversions_ok_witness :
    downloads_removed true false true (fun _ _ => false) (fun _ _ => true) "pdfs"
      [("doc", ["p1"])] = false := by
  have h := downloads_removed_iff_all_conversions_ok true false true
    (fun _ _ => false) (fun _ _ => true) "pdfs" [("doc", ["p1"])]
  by_contra hc
  simp only [Bool.not_eq_false] at hc
  have := h.1 hc
  have hmem : false ∈ conversion_results_of (fun _ _ => false) (fun _ _ => true) "pdfs"
      [("doc", ["p1"])] := by decide
  exact absurd (this.2.2.2.2 false hmem) (by decide)

/-- Updating one list entry changes `countP` by exactly the contribution of
the replaced element versus the new one. -/
theorem countP_set_balance (p : TaskPhase → Bool) :
    ∀ (l : List TaskPhase) (i : Nat) (h : i < l.length) (v : TaskPhase),
      (l.set i v).countP p + (if p (l.get ⟨i, h⟩) then 1 else 0) =
        l.countP p + (if p v then 1 else 0) := by
  intro l
  induction l with
  | nil => intro i h; simp at h
  | cons a rest ih =>
    intro i h v
    cases i with
    | zero => simp [List.countP_cons]; omega
    | succ j =>
      have hj : j < rest.length := by simpa using h
      have hrec := ih j hj v
      simp only [List.countP_cons, List.get_eq_getElem] at hrec ⊢
      simp only [List.set_cons_succ, List.countP_cons, List.getElem_cons_succ]
      omega

/-- Counting in a replicated list. -/
theorem countP_replicate_phase (p : TaskPhase → Bool) (a : TaskPhase) :
    ∀ k, (List.replicate k a).countP p = if p a then k else 0 := by
  intro k
  induction k with
  | zero => simp
  | succ j ih =>
    rw [List.replicate_succ, List.countP_cons, ih]
    by_cases hp : p a = true <;> simp [hp]

/-- Semaphore safety invariant: along every reachable state, the free slots
plus the held slots always total the configured limit. -/
theorem sem_invariant (n k : Nat) :
    ∀ s : SemState, SemReachable (semInit n k) s →
      s.avail + countHolding s.phases = n := by
  intro s h
  induction h with
  | refl =>
    simp [semInit, countHolding, countP_replicate_phase, isHolding]
  | step hr hstep ih =>
    rename_i s t
    cases hstep with
    | acquire i hi hp hav =>
      have hb := countP_set_balance isHolding s.phases i hi TaskPhase.holding
      rw [hp] at hb
      simp [isHolding] at hb
      simp only [countHolding] at ih ⊢
      omega
    | release i hi hp outcome =>
      have hb := countP_set_balance isHolding s.phases i hi TaskPhase.finished
      rw [hp] at hb
      simp [isHolding] at hb
      simp only [countHolding] at ih ⊢
      omega

/-- C4: in every state reachable under the semaphore discipline — pending
tasks acquire a slot only when one is free, and holding tasks release
unconditionally on completion, whether the fetch body returned or raised —
the number of tasks simultaneously holding a limiter slot never exceeds the
configured bound `n`. -/
theorem semaphore_holding_le_limit (n k : Nat) (s : SemState)
    (h : SemReachable (semInit n k) s) :
    countHolding s.phases ≤ n := by
  have := sem_invariant n k s h
  omega

/-- C4 witness: after one task of a three-task run acquires one of the two
slots, the number of holders is within the bound. -/
theorem semaphore_holding_le_limit_witness :
    countHolding ((semInit 2 3).phases.set 0 TaskPhase.holding) ≤ 2 :=
  semaphore_holding_le_limit 2 3
    ⟨(semInit 2 3).avail - 1, (semInit 2 3).phases.set 0 TaskPhase.holding⟩
    (SemReachable.step SemReachable.refl
      (SemStep.acquire (semInit 2 3) 0 (by decide) (by decide) (by decide)))


/-- The rounded-up quotient `(n + b - 1) / b` computed by the batching code
equals `n / b`, plus one exactly when `b` does not divide `n`. -/
theorem ceil_div_split (n b : Nat) (hb : 0 < b) :
    (n % b = 0 ∧ (n + b - 1) / b = n / b) ∨
    (n % b ≠ 0 ∧ (n + b - 1) / b = n / b + 1) := by
  have hdm := Nat.div_add_mod n b
  have hm := Nat.mod_lt n hb
  by_cases h0 : n % b = 0
  · left
    refine ⟨h0, ?_⟩
    have h1 : n + b - 1 = b * (n / b) + (b - 1) := by omega
    have h2 : (b - 1) / b = 0 := Nat.div_eq_of_lt (by omega)
    rw [h1, Nat.mul_add_div hb, h2]
    omega
  · right
    refine ⟨h0, ?_⟩
    have hmul : b * (n / b + 1) = b * (n / b) + b := by ring
    have h1 : n + b - 1 = b * (n / b + 1) + (n % b - 1) := by omega
    have h2 : (n % b - 1) / b = 0 := Nat.div_eq_of_lt (by omega)
    rw [h1, Nat.mul_add_div hb, h2]

/-- The batch count times the batch size covers the whole input. -/
theorem ceil_div_mul_ge (n b : Nat) (hb : 0 < b) : n ≤ ((n + b - 1) / b) * b := by
  have hdm := Nat.div_add_mod n b
  have hm := Nat.mod_lt n hb
  rcases ceil_div_split n b hb with ⟨h0, hq⟩ | ⟨h0, hq⟩
  · rw [hq]
    have : n / b * b = b * (n / b) := by ring
    omega
  · rw [hq]
    have : (n / b + 1) * b = b * (n / b) + b := by ring
    omega

/-- All batches but the last start strictly inside the input. -/
theorem ceil_div_pred_mul_lt (n b : Nat) (hb : 0 < b) (hn : 0 < n) :
    ((n + b - 1) / b - 1) * b < n := by
  have hdm := Nat.div_add_mod n b
  have hm := Nat.mod_lt n hb
  rcases ceil_div_split n b hb with ⟨h0, hq⟩ | ⟨h0, hq⟩
  · rw [hq]
    have hd : 0 < n / b := by
      rcases Nat.eq_zero_or_pos (n / b) with hz | hz
      · rw [hz] at hdm; omega
      · exact hz
    have h1 : (n / b - 1) * b = n / b * b - b := by
      rw [Nat.sub_mul, Nat.one_mul]
    have h2 : n / b * b = b * (n / b) := by ring
    have h3 : b * 1 ≤ b * (n / b) := Nat.mul_le_mul_left b hd
    omega
  · rw [hq]
    have h2 : n / b * b = b * (n / b) := by ring
    simp only [Nat.add_sub_cancel]
    omega

/-- Length of the last batch: the remainder of the division, or a full batch
when the division is exact. -/
theorem last_batch_size (n b : Nat) (hb : 0 < b) (hn : 0 < n) :
    n - ((n + b - 1) / b - 1) * b = if n % b = 0 then b else n % b := by
  have hdm := Nat.div_add_mod n b
  have hm := Nat.mod_lt n hb
  rcases ceil_div_split n b hb with ⟨h0, hq⟩ | ⟨h0, hq⟩
  · rw [hq, if_pos h0]
    have hd : 0 < n / b := by
      rcases Nat.eq_zero_or_pos (n / b) with hz | hz
      · rw [hz] at hdm; omega
      · exact hz
    have h1 : (n / b - 1) * b = n / b * b - b := by
      rw [Nat.sub_mul, Nat.one_mul]
    have h2 : n / b * b = b * (n / b) := by ring
    have h3 : b * 1 ≤ b * (n / b) := Nat.mul_le_mul_left b hd
    omega
  · rw [hq, if_neg h0]
    simp only [Nat.add_sub_cancel]
    have h2 : n / b * b = b * (n / b) := by ring
    omega

/-- Concatenating consecutive `take b` slices at offsets `0, b, 2b, …`
reassembles the original list, as soon as the slice count covers its length. -/
theorem flatten_take_slices {α : Type} (b : Nat) :
    ∀ (q : Nat) (l : List α), l.length ≤ q * b →
      ((List.range q).map (fun i => (l.drop (i * b)).take b)).flatten = l := by
  intro q
  induction q with
  | zero =>
    intro l hl
    simp only [Nat.zero_mul, Nat.le_zero, List.length_eq_zero] at hl
    simp [hl]
  | succ q ih =>
    intro l hl
    rw [List.range_succ_eq_map, List.map_cons, List.map_map, List.flatten_cons]
    have hcomp : ((fun i => (l.drop (i * b)).take b) ∘ Nat.succ)
        = fun i => ((l.drop b).drop (i * b)).take b := by
      funext i
      show (l.drop (Nat.succ i * b)).take b = (((l.drop b).drop (i * b))).take b
      rw [List.drop_drop]
      congr 1
      simp only [Nat.succ_eq_add_one]
      ring
    have hqb : (q + 1) * b = q * b + b := by ring
    have hlen : (l.drop b).length ≤ q * b := by
      simp only [List.length_drop]
      omega
    rw [hcomp, ih (l.drop b) hlen]
    simp

/-- Every batch slice is simply `take batch_size` at its offset: the `min`
clipping of the slice bound coincides with `take`'s own clipping. -/
theorem batch_slices_take_form (urls : List String) (b : Nat) :
    batch_slices urls b = (List.range ((urls.length + b - 1) / b)).map
      (fun i => (urls.drop (i * b)).take b) := by
  simp only [batch_slices]
  apply List.map_congr_left
  intro i hi
  by_cases h : i * b + b ≤ urls.length
  · have hmin : min (i * b + b) urls.length - i * b = b := by omega
    rw [hmin]
  · have hmin : min (i * b + b) urls.length = urls.length := by omega
    rw [hmin]
    rw [List.take_of_length_le (by simp), List.take_of_length_le (by simp; omega)]

/-- C5: for a positive batch size, `batch_download` partitions the URL list
into `ceil(n/b)` consecutive batches whose concatenation is the input, every
batch except the last having exactly `b` elements and the last having
`n mod b` (or `b` when the division is exact); an empty list yields an empty
result immediately, and a batch size at least the input length yields a
single batch. -/
theorem batch_download_partition (fetch : String → Option String) (urls : List String)
    (b : Nat) (hb : 0 < b) :
    batch_download fetch [] b = [] ∧
    (batch_slices urls b).flatten = urls ∧
    (batch_slices urls b).length
      = urls.length / b + (if urls.length % b = 0 then 0 else 1) ∧
    ((batch_slices urls b).map List.length =
      (List.range ((batch_slices urls b).length)).map (fun i =>
        if i + 1 < (batch_slices urls b).length then b
        else if urls.length % b = 0 then b else urls.length % b)) ∧
    (urls.length ≤ b → urls ≠ [] → (batch_slices urls b).length = 1) := by
  have hlen : (batch_slices urls b).length = (urls.length + b - 1) / b := by
    simp [batch_slices]
  refine ⟨by simp [batch_download], ?_, ?_, ?_, ?_⟩
  · rw [batch_slices_take_form]
    exact flatten_take_slices b _ urls (ceil_div_mul_ge urls.length b hb)
  · rw [hlen]
    rcases ceil_div_split urls.length b hb with ⟨h0, hq⟩ | ⟨h0, hq⟩ <;>
      simp [h0, hq]
  · rw [hlen, batch_slices_take_form, List.map_map]
    apply List.map_congr_left
    intro i hi
    rw [List.mem_range] at hi
    have hn : 0 < urls.length := by
      rcases Nat.eq_zero_or_pos urls.length with hz | hz
      · exfalso
        have : (0 + b - 1) / b = 0 := Nat.div_eq_of_lt (by omega)
        rw [hz] at hi
        omega
      · exact hz
    simp only [Function.comp_apply, List.length_take, List.length_drop]
    by_cases hlast : i + 1 < (urls.length + b - 1) / b
    · rw [if_pos hlast]
      have h1 : i + 1 ≤ (urls.length + b - 1) / b - 1 := by omega
      have h2 : (i + 1) * b ≤ ((urls.length + b - 1) / b - 1) * b :=
        Nat.mul_le_mul_right b h1
      have h3 := ceil_div_pred_mul_lt urls.length b hb hn
      have h4 : (i + 1) * b = i * b + b := by ring
      omega
    · rw [if_neg hlast]
      have hieq : i = (urls.length + b - 1) / b - 1 := by omega
      have h5 := ceil_div_mul_ge urls.length b hb
      have h6 := ceil_div_pred_mul_lt urls.length b hb hn
      have h7 : ((urls.length + b - 1) / b) * b
          = ((urls.length + b - 1) / b - 1) * b + b := by
        have : (urls.length + b - 1) / b - 1 + 1 = (urls.length + b - 1) / b := by omega
        calc ((urls.length + b - 1) / b) * b
            = ((urls.length + b - 1) / b - 1 + 1) * b := by rw [this]
          _ = ((urls.length + b - 1) / b - 1) * b + b := by ring
      have h8 := last_batch_size urls.length b hb hn
      rw [hieq]
      omega
  · intro hub hne
    have hn : 0 < urls.length := by
      cases urls with
      | nil => exact absurd rfl hne
      | cons a rest => simp
    rw [hlen]
    by_cases heq : urls.length = b
    · have : (urls.length + b - 1) = b * 1 + (b - 1) := by omega
      rw [this, Nat.mul_add_div hb, Nat.div_eq_of_lt (by omega)]
    · have hlt : urls.length < b := by omega
      have : (urls.length + b - 1) = b * 1 + (urls.length - 1) := by omega
      rw [this, Nat.mul_add_div hb, Nat.div_eq_of_lt (by omega)]

/-- C5 witness: three URLs with batch size two re-assemble to the input. -/
theorem batch_download_partition_witness :
    (batch_slices ["a", "b", "c"] 2).flatten = ["a", "b", "c"] :=
  (batch_download_partition (fun _ => none) ["a", "b", "c"] 2 (by decide)).2.1

/-- The accumulated batch success count is positive exactly when some image
of some batch converts successfully. -/
theorem batch_success_count_pos_iff (env : ConvEnv) (input_dir output_dir : String) :
    ∀ B : List (List String),
      0 < batch_success_count env input_dir output_dir B ↔
      ∃ p ∈ B.flatten,
        convert_single_image env p (convert_out_path input_dir output_dir p) = true := by
  intro B
  induction B with
  | nil => simp [batch_success_count]
  | cons batch rest ih =>
    simp only [batch_success_count, List.flatten_cons, List.mem_append]
    constructor
    · intro hpos
      rcases Nat.lt_or_ge 0 ((batch.map (fun p => convert_single_image env p
          (convert_out_path input_dir output_dir p))).count true) with hc | hc
      · rw [List.count_pos_iff, List.mem_map] at hc
        rcases hc with ⟨p, hp, hpe⟩
        exact ⟨p, Or.inl hp, hpe⟩
      · have hrest : 0 < batch_success_count env input_dir output_dir rest := by omega
        rcases ih.1 hrest with ⟨p, hp, hpe⟩
        exact ⟨p, Or.inr hp, hpe⟩
    · rintro ⟨p, hp | hp, hpe⟩
      · have : true ∈ batch.map (fun p => convert_single_image env p
            (convert_out_path input_dir output_dir p)) :=
          List.mem_map.2 ⟨p, hp, hpe⟩
        have := List.count_pos_iff.2 this
        omega
      · have := ih.2 ⟨p, hp, hpe⟩
        omega

/-- C7: `batch_convert` returns `true` exactly when at least one of the
supplied images converts to a PDF successfully; with an empty path list, or
when none of the paths is a valid readable supported image (so that every
per-image conversion fails), it returns `false`. -/
theorem batch_convert_iff_some_success (env : ConvEnv) (image_paths : List String)
    (input_dir output_dir : String) (batch_size : Nat) (hb : 0 < batch_size) :
    batch_convert env [] input_dir output_dir batch_size = false ∧
    (batch_convert env image_paths input_dir output_dir batch_size = true ↔
      ∃ p ∈ image_paths,
        convert_single_image env p (convert_out_path input_dir output_dir p) = true) := by
  refine ⟨by simp [batch_convert], ?_⟩
  by_cases hp : image_paths = []
  · subst hp
    simp [batch_convert]
  · unfold batch_convert
    rw [if_neg hp]
    have hflat : ((List.range ((image_paths.length + batch_size - 1) / batch_size)).map
        (fun i => (image_paths.drop (i * batch_size)).take batch_size)).flatten
        = image_paths :=
      flatten_take_slices batch_size _ image_paths
        (ceil_div_mul_ge image_paths.length batch_size hb)
    rw [decide_eq_true_eq, gt_iff_lt]
    rw [batch_success_count_pos_iff env input_dir output_dir, hflat]

/-- C7 witness: with one readable supported image the batch conversion
succeeds, and with an empty list it fails. -/
theorem batch_convert_iff_some_success_witness :
    batch_convert ⟨fun _ => true, fun _ => true, fun _ => true⟩ ["a.png"] "d" "o" 50 = true ∧
    batch_convert ⟨fun _ => true, fun _ => true, fun _ => true⟩ [] "d" "o" 50 = false := by
  constructor
  · exact (batch_convert_iff_some_success ⟨fun _ => true, fun _ => true, fun _ => true⟩
      ["a.png"] "d" "o" 50 (by decide)).2.mpr ⟨"a.png", by decide, by decide⟩
  · exact (batch_convert_iff_some_success ⟨fun _ => true, fun _ => true, fun _ => true⟩
      ["a.png"] "d" "o" 50 (by decide)).1

/-- Probe-loop characterization: when the server succeeds for the `k`
consecutive pages starting at `page0` and fails at `page0 + k` (with enough
fuel), the loop returns exactly those `k` page paths in probing order and
exactly the one failure record of the first failed page — and therefore never
depends on the server's behaviour at any later page index. -/
theorem probeLoop_spec (server : Server) (pyhash : String → Int)
    (url output_dir ofn : String) :
    ∀ (k page0 fuel : Nat), k + 1 ≤ fuel →
      (∀ p, page0 ≤ p → p < page0 + k →
        server (sub_preview_index url p) = Resp.status 200) →
      server (sub_preview_index url (page0 + k)) ≠ Resp.status 200 →
      probeLoop server pyhash url output_dir ofn fuel page0 =
        ((List.range k).map (fun i => page_dl_path pyhash url output_dir ofn (page0 + i)),
         (download_file server pyhash (sub_preview_index url (page0 + k)) output_dir
           (some ofn) (page0 + k)).2.toList) := by
  intro k
  induction k with
  | zero =>
    intro page0 fuel hfuel hsucc hfail
    cases fuel with
    | zero => omega
    | succ f =>
      rw [Nat.add_zero] at hfail ⊢
      cases hs : server (sub_preview_index url page0) with
      | status c =>
        have hc : c ≠ 200 := by
          intro h
          rw [h] at hs
          exact hfail hs
        simp [probeLoop, download_file, hs, hc]
      | exc m =>
        simp [probeLoop, download_file, hs]
  | succ k ihk =>
    intro page0 fuel hfuel hsucc hfail
    cases fuel with
    | zero => omega
    | succ f =>
      have h200 : server (sub_preview_index url page0) = Resp.status 200 :=
        hsucc page0 (Nat.le_refl page0) (by omega)
      have harg : page0 + (k + 1) = page0 + 1 + k := by omega
      rw [harg] at hfail
      have hrest := ihk (page0 + 1) f (by omega)
        (fun p h1 h2 => hsucc p (by omega) (by omega)) hfail
      have hdf : download_file server pyhash (sub_preview_index url page0) output_dir
          (some ofn) page0
          = (some (page_dl_path pyhash url output_dir ofn page0), none) := by
        simp [download_file, h200, page_dl_path]
      have htail : List.map ((fun i => page_dl_path pyhash url output_dir ofn (page0 + i))
            ∘ Nat.succ) (List.range k)
          = List.map (fun i => page_dl_path pyhash url output_dir ofn (page0 + 1 + i))
            (List.range k) := by
        apply List.map_congr_left
        intro i _
        simp only [Function.comp_apply]
        congr 1
        omega
      have hmap : (List.range (k + 1)).map
            (fun i => page_dl_path pyhash url output_dir ofn (page0 + i))
          = page_dl_path pyhash url output_dir ofn page0
            :: (List.range k).map
              (fun i => page_dl_path pyhash url output_dir ofn (page0 + 1 + i)) := by
        rw [List.range_succ_eq_map, List.map_cons, List.map_map, htail, Nat.add_zero]
      simp only [probeLoop, hdf]
      rw [hrest, hmap, harg]

/-- C2: for a document whose base URL carries the page-index parameter, if
the server succeeds for pages `1..k` and fails at page `k+1 ≤ max_pages`,
the resolver returns exactly the `k` page paths in the order `1, 2, …, k`
with no gaps, and stops at the first failed fetch — the result is fully
determined without any constraint on pages beyond `k+1`. -/
theorem multipage_probe_ordered (server : Server) (pyhash : String → Int)
    (url output_dir ofn : String) (k max_pages : Nat)
    (hc : strContains url "previewFileIndex=" = true)
    (hk : k + 1 ≤ max_pages)
    (hsucc : ∀ p, 1 ≤ p → p ≤ k → server (sub_preview_index url p) = Resp.status 200)
    (hfail : server (sub_preview_index url (k + 1)) ≠ Resp.status 200) :
    (download_multipages server pyhash url output_dir ofn max_pages).1 =
      (List.range k).map (fun i => page_dl_path pyhash url output_dir ofn (i + 1)) ∧
    (download_multipages server pyhash url output_dir ofn max_pages).2 =
      (download_file server pyhash (sub_preview_index url (k + 1)) output_dir
        (some ofn) (k + 1)).2.toList := by
  have hfail1 : server (sub_preview_index url (1 + k)) ≠ Resp.status 200 := by
    rw [Nat.add_comm]
    exact hfail
  have hspec := probeLoop_spec server pyhash url output_dir ofn k 1 max_pages hk
    (fun p h1 h2 => hsucc p h1 (by omega)) hfail1
  unfold download_multipages
  rw [if_pos hc, hspec]
  constructor
  · apply List.map_congr_left
    intro i _
    congr 1
    omega
  · rw [Nat.add_comm]

/-- C2 witness: against a server that serves pages 1 and 2 and then 404s,
probing returns exactly the two ordered page paths. -/
theorem multipage_probe_ordered_witness :
    (download_multipages demoServer2 (fun _ => 0) "d?previewFileIndex=1" "dl" "doc.pdf" 5).1 =
      (List.range 2).map
        (fun i => page_dl_path (fun _ => 0) "d?previewFileIndex=1" "dl" "doc.pdf" (i + 1)) :=
  (multipage_probe_ordered demoServer2 (fun _ => 0) "d?previewFileIndex=1" "dl" "doc.pdf" 2 5
    (by decide) (by decide)
    (fun p h1 h2 => by
      have hp : p = 1 ∨ p = 2 := by omega
      rcases hp with hp | hp <;> subst hp <;> decide)
    (by decide)).1

/-- C3 counterexample: with pages 1, 2, 3 returning 200 and page 4 returning
404, `download_multipages` records the terminating 404 as a failure — the
error list for the document is not empty (it has exactly one entry), refuting
the claim that zero failure records are produced. -/
theorem probe_404_recorded_as_failure :
    (download_multipages demoServer3 (fun _ => 0) "d?previewFileIndex=1" "dl" "doc.pdf" 20).2 ≠ []
      ∧ (download_multipages demoServer3 (fun _ => 0) "d?previewFileIndex=1" "dl"
          "doc.pdf" 20).2.length = 1
      ∧ (download_multipages demoServer3 (fun _ => 0) "d?previewFileIndex=1" "dl"
          "doc.pdf" 20).1.length = 3 := by
  refine ⟨?_, ?_, ?_⟩ <;> decide

/-- C3 amended: when probing ends with a 404 at page `k+1` after pages
`1..k` succeeded, probing halts there, the `k` pages are kept, and exactly
one failure record — the 404 of page `k+1`, carrying the document's filename,
the failed page URL, status 404 and page index `k+1` — is produced for the
document and propagated to the run's error list. -/
theorem multipage_probe_404_single_failure (server : Server) (pyhash : String → Int)
    (url output_dir ofn : String) (k max_pages : Nat)
    (hc : strContains url "previewFileIndex=" = true)
    (hk : k + 1 ≤ max_pages)
    (hsucc : ∀ p, 1 ≤ p → p ≤ k → server (sub_preview_index url p) = Resp.status 200)
    (h404 : server (sub_preview_index url (k + 1)) = Resp.status 404) :
    (download_multipages server pyhash url output_dir ofn max_pages).1.length = k ∧
    (download_multipages server pyhash url output_dir ofn max_pages).2 =
      [⟨some ofn, sub_preview_index url (k + 1),
        "Erro ao baixar " ++ sub_preview_index url (k + 1) ++ ": " ++ toString 404,
        StatusDetail.code 404, k + 1⟩] := by
  have hfail1 : server (sub_preview_index url (1 + k)) ≠ Resp.status 200 := by
    rw [Nat.add_comm]
    rw [h404]
    intro h
    exact absurd (Resp.status.injEq 404 200 ▸ h) (by omega)
  have hspec := probeLoop_spec server pyhash url output_dir ofn k 1 max_pages hk
    (fun p h1 h2 => hsucc p h1 (by omega)) hfail1
  unfold download_multipages
  rw [if_pos hc, hspec]
  constructor
  · simp
  · rw [Nat.add_comm 1 k]
    simp [download_file, h404]

/-- C3 amended witness: at the concrete 3-page document the single recorded
failure is the 404 of page 4. -/
theorem multipage_probe_404_single_failure_witness :
    (download_multipages demoServer3 (fun _ => 0) "d?previewFileIndex=1" "dl" "doc.pdf" 20).2 =
      [⟨some "doc.pdf", sub_preview_index "d?previewFileIndex=1" 4,
        "Erro ao baixar " ++ sub_preview_index "d?previewFileIndex=1" 4 ++ ": " ++ toString 404,
        StatusDetail.code 404, 4⟩] :=
  (multipage_probe_404_single_failure demoServer3 (fun _ => 0) "d?previewFileIndex=1" "dl"
    "doc.pdf" 3 20 (by decide) (by decide)
    (fun p h1 h2 => by
      have hp : p = 1 ∨ p = 2 ∨ p = 3 := by omega
      rcases hp with hp | hp | hp <;> subst hp <;> decide)
    (by decide)).2
